import Mathlib

/-!
Shallow embedding of `lessons/bias-variance_tradeoff.ipynb`.

The notebook generates a noisy synthetic dataset from a fixed ground-truth
function, expands the inputs into polynomial features, fits one
ordinary-least-squares model per polynomial degree, and compares training
and test RMSE curves.  Machine floats are embedded as real numbers; the
NumPy random streams consumed by `np.random.randn` are passed explicitly
as parameters (`ℕ → ℝ` for per-index draws, `List ℝ` for a drawn batch).
Fallible library calls (`statistics.mean` raises on empty data, NumPy
raises on elementwise operations over mismatched shapes) are embedded
with `Option`.
-/

namespace BiasVariance

/-- Cell 1: `N = 40`, the maximum polynomial degree. -/
def N : ℕ := 40

/-- Cell 1: `NOISE = .5`, the noise scale. -/
noncomputable def NOISE : ℝ := 1/2

/-- Cell 3: `true_model = lambda x: 3*x**2 + 5 * np.vectorize(math.sin)(x**(4) + 3) + x`. -/
noncomputable def true_model (v : ℝ) : ℝ := 3 * v ^ 2 + 5 * Real.sin (v ^ 4 + 3) + v

/-- Cell 3: `x = np.arange(-1, 1, .01)`: the 200 values `-1 + k * 0.01` for
`k = 0, …, 199`.  The construction is deterministic; it consumes no random
draw. -/
noncomputable def x : List ℝ := (List.range 200).map (fun k : ℕ => -1 + (k : ℝ) / 100)

/-- The training-input stage viewed as a function of the program's random
stream: cell 3 computes `x` by `np.arange` and ignores the stream. -/
noncomputable def trainInputs (_g : ℕ → ℝ) : List ℝ := x

/-- Cell 3: `y_true = true_model(x)`. -/
noncomputable def y_true : List ℝ := x.map true_model

/-- Elementwise noisy-target generation `f(xs) + scale * randn(len(xs))`,
with the Gaussian draw passed explicitly as `eps`. -/
noncomputable def addNoise (f : ℝ → ℝ) (scale : ℝ) (xs : List ℝ) (eps : ℕ → ℝ) : List ℝ :=
  (xs.map f).mapIdx (fun i v => v + scale * eps i)

/-- Cell 3: `y = y_true + (NOISE * np.random.randn(y_true.size))`. -/
noncomputable def y (eps : ℕ → ℝ) : List ℝ :=
  y_true.mapIdx (fun i v => v + NOISE * eps i)

/-- One row of the feature frame, degree `d`: the powers `[v^1, v^2, …, v^d]`. -/
noncomputable def featureRow (d : ℕ) (v : ℝ) : List ℝ :=
  (List.range d).map (fun k => v ^ (k + 1))

/-- The feature matrix of degree `d` over an input sequence: one row of
powers per input. -/
noncomputable def featureMatrix (d : ℕ) (xs : List ℝ) : List (List ℝ) :=
  xs.map (featureRow d)

/-- Cell 5: one row of `df`, whose columns are the x column followed by the x^i columns
for `i in range(2, N+1)`; the row for input `v` is `[v, v^2, …, v^N]`. -/
noncomputable def dfRow (v : ℝ) : List ℝ := v :: (List.range' 2 (N - 1)).map (fun i => v ^ i)

/-- Cell 5: the data frame `df` built from the training inputs `x`. -/
noncomputable def df : List (List ℝ) := x.map dfRow

/-- `df.shape[1]`: one plain x column plus the `N - 1` columns `x^2 … x^N`,
i.e. `N` columns. -/
def dfShape1 : ℕ := N

/-- Cell 7: `Xs = [df[list(df.columns[:i])].values for i in range(1, df.shape[1])]`:
the column-prefix matrices of widths `1, …, df.shape[1] - 1`. -/
noncomputable def Xs : List (List (List ℝ)) :=
  (List.range' 1 (dfShape1 - 1)).map (fun i => df.map (fun row => row.take i))

/-- An sklearn `LinearRegression` model: an intercept plus one coefficient
per feature column. -/
structure LinModel where
  intercept : ℝ
  coef : List ℝ

/-- Dot product of a coefficient vector with a feature row. -/
noncomputable def dot (a b : List ℝ) : ℝ := (List.zipWith (· * ·) a b).sum

/-- Prediction of a linear model on one feature row. -/
noncomputable def LinModel.predictRow (m : LinModel) (row : List ℝ) : ℝ :=
  m.intercept + dot m.coef row

/-- `model.predict(X)`: one prediction per row of the feature matrix. -/
noncomputable def LinModel.predict (m : LinModel) (X : List (List ℝ)) : List ℝ :=
  X.map m.predictRow

/-- Cell 13 inner expression `(true_y - preds)**2`: the elementwise squared
differences between targets and predictions. -/
noncomputable def sqDiffs (preds true_y : List ℝ) : List ℝ :=
  List.zipWith (fun p t => (t - p) ^ 2) preds true_y

/-- Residual sum of squares of a model on a feature matrix against targets. -/
noncomputable def sse (m : LinModel) (X : List (List ℝ)) (ys : List ℝ) : ℝ :=
  (sqDiffs (m.predict X) ys).sum

/-- The contract of `LinearRegression().fit(X, y)` for a feature matrix of
`d` columns: the returned intercept and coefficients minimize the residual
sum of squares on the given data (the documented ordinary-least-squares objective of sklearn), taken over exact real arithmetic. -/
def IsOLSFit (d : ℕ) (X : List (List ℝ)) (ys : List ℝ) (m : LinModel) : Prop :=
  m.coef.length = d ∧ ∀ m' : LinModel, m'.coef.length = d → sse m X ys ≤ sse m' X ys

/-- `statistics.mean`: the sum divided by the count (raises on empty data;
totalized here, with emptiness guarded at the call site in `rmse`). -/
noncomputable def mean (l : List ℝ) : ℝ := l.sum / l.length

/-- The real value `math.sqrt(mean((true_y - preds)**2))` computed by cell 13
on well-formed input. -/
noncomputable def rmseVal (preds true_y : List ℝ) : ℝ :=
  Real.sqrt (mean (sqDiffs preds true_y))

/-- Cell 13: `rmse(preds, true_y=y)`.  `none` embeds the raising branches:
`statistics.mean` raises `StatisticsError` on empty data, and the NumPy
subtraction `true_y - preds` raises on mismatched lengths (the size-one
broadcast corner of NumPy is not exercised by any call in the notebook). -/
noncomputable def rmse (preds true_y : List ℝ) : Option ℝ :=
  if preds.length = true_y.length ∧ preds ≠ [] then some (rmseVal preds true_y) else none

/-- Cell 17: `x_test = np.array([i for i in x_test if abs(i) <= 1])` applied
to a batch of 500 standard-normal draws passed in as `draw`. -/
noncomputable def x_test (draw : List ℝ) : List ℝ := draw.filter (fun v => decide (|v| ≤ 1))

/-- Cell 17: `y_test = true_model(x_test) + (NOISE * np.random.randn(x_test.size))`,
over an arbitrary test-input sequence `xs` and a fresh draw `eps`. -/
noncomputable def y_test (xs : List ℝ) (eps : ℕ → ℝ) : List ℝ :=
  (xs.map true_model).mapIdx (fun i v => v + NOISE * eps i)

/-- Cell 17: the data frame `df_test` built from a test-input sequence. -/
noncomputable def df_test (xs : List ℝ) : List (List ℝ) := xs.map dfRow

/-- Cell 17: `test_Xs = [df_test[list(df_test.columns[:i])].values for i in
range(1, df_test.shape[1])]`. -/
noncomputable def test_Xs (xs : List ℝ) : List (List (List ℝ)) :=
  (List.range' 1 (dfShape1 - 1)).map (fun i => (df_test xs).map (fun row => row.take i))

/-! ### Structural lemmas about the embedding -/

lemma length_featureRow (d : ℕ) (v : ℝ) : (featureRow d v).length = d := by
  simp [featureRow]

lemma length_featureMatrix (d : ℕ) (xs : List ℝ) :
    (featureMatrix d xs).length = xs.length := by
  simp [featureMatrix]

lemma featureRow_take (d1 d2 : ℕ) (h : d1 ≤ d2) (v : ℝ) :
    (featureRow d2 v).take d1 = featureRow d1 v := by
  simp [featureRow, ← List.map_take, List.take_range, Nat.min_eq_left h]

lemma featureRow_add (d1 k : ℕ) (v : ℝ) :
    featureRow (d1 + k) v = featureRow d1 v ++ (List.range k).map (fun j => v ^ (d1 + j + 1)) := by
  unfold featureRow
  rw [List.range_add, List.map_append, List.map_map]
  rfl

lemma featureRow_one (v : ℝ) : featureRow 1 v = [v] := by
  simp [featureRow, List.range_succ]

lemma dfShape1_sub_one : dfShape1 - 1 = 39 := by norm_num [dfShape1, N]

lemma dfRow_eq_featureRow (v : ℝ) : dfRow v = featureRow N v := by
  have h : featureRow N v = featureRow 1 v ++ (List.range 39).map (fun j => v ^ (1 + j + 1)) :=
    featureRow_add 1 39 v
  unfold dfRow
  rw [h, featureRow_one, List.singleton_append, show N - 1 = 39 from rfl]
  congr 1

lemma df_eq : df = featureMatrix N x :=
  List.map_congr_left (fun v _ => dfRow_eq_featureRow v)

lemma df_test_eq (xs : List ℝ) : df_test xs = featureMatrix N xs :=
  List.map_congr_left (fun v _ => dfRow_eq_featureRow v)

lemma featureMatrix_take (d1 d2 : ℕ) (h : d1 ≤ d2) (xs : List ℝ) :
    (featureMatrix d2 xs).map (fun row => row.take d1) = featureMatrix d1 xs := by
  unfold featureMatrix
  rw [List.map_map]
  exact List.map_congr_left (fun v _ => featureRow_take d1 d2 h v)

lemma Xs_eq : Xs = (List.range' 1 39).map (fun i => featureMatrix i x) := by
  unfold Xs
  rw [dfShape1_sub_one]
  refine List.map_congr_left (fun i hi => ?_)
  rw [List.mem_range'_1] at hi
  rw [df_eq]
  exact featureMatrix_take i N (by unfold N; omega) x

lemma test_Xs_eq (xs : List ℝ) :
    test_Xs xs = (List.range' 1 39).map (fun i => featureMatrix i xs) := by
  unfold test_Xs
  rw [dfShape1_sub_one]
  refine List.map_congr_left (fun i hi => ?_)
  rw [List.mem_range'_1] at hi
  rw [df_test_eq]
  exact featureMatrix_take i N (by unfold N; omega) xs

lemma Xs_length : Xs.length = 39 := by
  unfold Xs
  rw [List.length_map, List.length_range', dfShape1_sub_one]

/-! ### Lemmas about squared errors and RMSE -/

lemma sqDiffs_nonneg (preds ts : List ℝ) : ∀ a ∈ sqDiffs preds ts, 0 ≤ a := by
  unfold sqDiffs
  induction preds generalizing ts with
  | nil => simp
  | cons p ps ih =>
    cases ts with
    | nil => simp
    | cons t ts' =>
      intro a ha
      rcases List.mem_cons.mp ha with h | h
      · subst h; positivity
      · exact ih ts' a h

lemma sse_nonneg (m : LinModel) (X : List (List ℝ)) (ys : List ℝ) : 0 ≤ sse m X ys :=
  List.sum_nonneg (sqDiffs_nonneg _ _)

lemma length_sqDiffs (preds ts : List ℝ) :
    (sqDiffs preds ts).length = min preds.length ts.length := by
  simp [sqDiffs]

lemma length_predict (m : LinModel) (X : List (List ℝ)) :
    (m.predict X).length = X.length := by
  simp [LinModel.predict]

lemma sqDiffs_cons (p t : ℝ) (ps ts : List ℝ) :
    sqDiffs (p :: ps) (t :: ts) = (t - p) ^ 2 :: sqDiffs ps ts := rfl

lemma sqDiffs_sum_eq_zero_iff (preds ts : List ℝ) (h : preds.length = ts.length) :
    (sqDiffs preds ts).sum = 0 ↔ preds = ts := by
  induction preds generalizing ts with
  | nil =>
    cases ts with
    | nil => simp [sqDiffs]
    | cons t ts' => simp at h
  | cons p ps ih =>
    cases ts with
    | nil => simp at h
    | cons t ts' =>
      have h' : ps.length = ts'.length := by simpa using h
      rw [sqDiffs_cons, List.sum_cons,
        add_eq_zero_iff_of_nonneg (by positivity) (List.sum_nonneg (sqDiffs_nonneg ps ts'))]
      constructor
      · rintro ⟨h1, h2⟩
        have hpt : p = t := by
          have h3 : t - p = 0 := sq_eq_zero_iff.mp h1
          linarith
        rw [hpt, (ih ts' h').mp h2]
      · intro h1
        injection h1 with h1a h1b
        subst h1a
        exact ⟨by simp, (ih ts' h').mpr h1b⟩

lemma zipWith_mul_replicate_zero_sum (k : ℕ) (l : List ℝ) :
    (List.zipWith (· * ·) (List.replicate k (0:ℝ)) l).sum = 0 := by
  induction k generalizing l with
  | zero => simp
  | succ k ih =>
    cases l with
    | nil => simp
    | cons a l' => simp [List.replicate_succ, ih]

lemma dot_append_zero (c r1 rest : List ℝ) (k : ℕ) (h : c.length = r1.length) :
    dot (c ++ List.replicate k 0) (r1 ++ rest) = dot c r1 := by
  unfold dot
  rw [List.zipWith_append _ _ _ _ _ h, List.sum_append, zipWith_mul_replicate_zero_sum, add_zero]

lemma predictRow_pad (m : LinModel) (d1 d2 : ℕ) (h1 : m.coef.length = d1)
    (hle : d1 ≤ d2) (v : ℝ) :
    LinModel.predictRow ⟨m.intercept, m.coef ++ List.replicate (d2 - d1) 0⟩ (featureRow d2 v)
      = m.predictRow (featureRow d1 v) := by
  unfold LinModel.predictRow
  have hsplit : featureRow d2 v
      = featureRow d1 v ++ (List.range (d2 - d1)).map (fun j => v ^ (d1 + j + 1)) := by
    have h := featureRow_add d1 (d2 - d1) v
    rwa [Nat.add_sub_cancel' hle] at h
  rw [hsplit]
  rw [dot_append_zero _ _ _ _ (by rw [h1, length_featureRow])]

lemma predict_pad (m : LinModel) (d1 d2 : ℕ) (h1 : m.coef.length = d1)
    (hle : d1 ≤ d2) (xs : List ℝ) :
    LinModel.predict ⟨m.intercept, m.coef ++ List.replicate (d2 - d1) 0⟩ (featureMatrix d2 xs)
      = m.predict (featureMatrix d1 xs) := by
  unfold LinModel.predict featureMatrix
  rw [List.map_map, List.map_map]
  exact List.map_congr_left (fun v _ => predictRow_pad m d1 d2 h1 hle v)

lemma sse_pad (m : LinModel) (d1 d2 : ℕ) (h1 : m.coef.length = d1)
    (hle : d1 ≤ d2) (xs ys : List ℝ) :
    sse ⟨m.intercept, m.coef ++ List.replicate (d2 - d1) 0⟩ (featureMatrix d2 xs) ys
      = sse m (featureMatrix d1 xs) ys := by
  unfold sse
  rw [predict_pad m d1 d2 h1 hle]

lemma sse_ols_monotone (xs ys : List ℝ) (d1 d2 : ℕ) (hle : d1 ≤ d2) (m1 m2 : LinModel)
    (hm1 : IsOLSFit d1 (featureMatrix d1 xs) ys m1)
    (hm2 : IsOLSFit d2 (featureMatrix d2 xs) ys m2) :
    sse m2 (featureMatrix d2 xs) ys ≤ sse m1 (featureMatrix d1 xs) ys := by
  obtain ⟨hlen1, _⟩ := hm1
  obtain ⟨_, hmin2⟩ := hm2
  have hpadlen : (m1.coef ++ List.replicate (d2 - d1) (0:ℝ)).length = d2 := by
    rw [List.length_append, List.length_replicate, hlen1]
    omega
  calc sse m2 (featureMatrix d2 xs) ys
      ≤ sse ⟨m1.intercept, m1.coef ++ List.replicate (d2 - d1) 0⟩ (featureMatrix d2 xs) ys :=
        hmin2 _ hpadlen
    _ = sse m1 (featureMatrix d1 xs) ys := sse_pad m1 d1 d2 hlen1 hle xs ys

lemma rmseVal_mono (p1 p2 ys : List ℝ) (hlen : p1.length = p2.length)
    (hs : (sqDiffs p2 ys).sum ≤ (sqDiffs p1 ys).sum) :
    rmseVal p2 ys ≤ rmseVal p1 ys := by
  unfold rmseVal mean
  apply Real.sqrt_le_sqrt
  rw [length_sqDiffs, length_sqDiffs, hlen, div_eq_mul_inv, div_eq_mul_inv]
  exact mul_le_mul_of_nonneg_right hs (by positivity)

lemma length_x : x.length = 200 := by
  unfold x
  rw [List.length_map, List.length_range]

lemma x_getD (k : ℕ) (h : k < 200) : x.getD k 0 = -1 + (k : ℝ) / 100 := by
  unfold x
  rw [List.getD_eq_getElem _ _ (by simpa using h), List.getElem_map, List.getElem_range]

lemma featureRow_getD (d j : ℕ) (v : ℝ) (h : j < d) :
    (featureRow d v).getD j 0 = v ^ (j + 1) := by
  unfold featureRow
  rw [List.getD_eq_getElem _ _ (by simpa using h), List.getElem_map, List.getElem_range]

lemma length_y (eps : ℕ → ℝ) : (y eps).length = 200 := by
  simp [y, y_true, length_x]

lemma length_y_test (xs : List ℝ) (eps : ℕ → ℝ) : (y_test xs eps).length = xs.length := by
  simp [y_test]

lemma Xs_pos : 0 < Xs.length := by
  rw [Xs_length]
  norm_num

lemma Xs_mem_length (M : List (List ℝ)) (hM : M ∈ Xs) : M.length = 200 := by
  rw [Xs_eq] at hM
  obtain ⟨i, _, rfl⟩ := List.mem_map.mp hM
  rw [length_featureMatrix, length_x]

lemma test_Xs_mem_length (xs : List ℝ) (M : List (List ℝ)) (hM : M ∈ test_Xs xs) :
    M.length = xs.length := by
  rw [test_Xs_eq] at hM
  obtain ⟨i, _, rfl⟩ := List.mem_map.mp hM
  rw [length_featureMatrix]

/-! ### Claim theorems -/

/-- C1: the claim says the fitter produces one OLS model per degree `1..N`
with `N = 40`, i.e. 40 models.  Evaluating the code: `df` has `N = 40`
columns, and `Xs = [df[…[:i]] for i in range(1, df.shape[1])]` produces the
column-prefix matrices of widths `1..39` only — 39 feature matrices, hence
39 fitted models (`models` has one entry per entry of `Xs`).  The `x^40`
column of `df` is built but never fitted, contradicting the text of the notebook itself ("all the polynomials up to degree N"). -/
theorem C1_models_count_eval :
    N = 40 ∧ Xs.length = 39 ∧ Xs.length ≠ N ∧
    Xs = (List.range' 1 39).map (fun i => featureMatrix i x) :=
  ⟨rfl, Xs_length, by rw [Xs_length]; decide, Xs_eq⟩

/-- C4 counterexample: the claim says the training inputs are drawn uniformly
at random ("the sequence is a function of the random draw").  In the code
`x = np.arange(-1, 1, .01)` consumes no randomness: no two random draws can
yield different training sequences, and the first two entries are the fixed
grid points `-1` and `-0.99` regardless of the draw. -/
theorem C4_counterexample :
    (¬ ∃ g1 g2 : ℕ → ℝ, trainInputs g1 ≠ trainInputs g2) ∧
    (trainInputs (fun _ => 37)).getD 0 0 = -1 ∧
    (trainInputs (fun _ => 37)).getD 1 0 = -1 + 1 / 100 := by
  refine ⟨?_, ?_, ?_⟩
  · rintro ⟨g1, g2, hne⟩
    exact hne rfl
  · rw [show trainInputs (fun _ => 37) = x from rfl, x_getD 0 (by norm_num)]
    norm_num
  · rw [show trainInputs (fun _ => 37) = x from rfl, x_getD 1 (by norm_num)]
    norm_num

/-- C4 amended: the training input sequence is the deterministic evenly
spaced grid `np.arange(-1, 1, .01)` — independent of the random draw, 200
values starting at `-1` with consecutive spacing `1/100`. -/
theorem C4_train_inputs_deterministic_grid (g h : ℕ → ℝ) (k : ℕ) (hk : k + 1 < 200) :
    trainInputs g = trainInputs h ∧
    (trainInputs g).length = 200 ∧
    (trainInputs g).getD 0 0 = -1 ∧
    (trainInputs g).getD (k + 1) 0 - (trainInputs g).getD k 0 = 1 / 100 := by
  refine ⟨rfl, length_x, ?_, ?_⟩
  · rw [show trainInputs g = x from rfl, x_getD 0 (by norm_num)]
    norm_num
  · rw [show trainInputs g = x from rfl, x_getD (k + 1) hk, x_getD k (by omega)]
    push_cast
    ring

theorem C4_witness :
    trainInputs (fun _ => 0) = trainInputs (fun _ => 1) ∧
    (trainInputs (fun _ => 0)).length = 200 ∧
    (trainInputs (fun _ => 0)).getD 0 0 = -1 ∧
    (trainInputs (fun _ => 0)).getD (0 + 1) 0 - (trainInputs (fun _ => 0)).getD 0 0 = 1 / 100 :=
  C4_train_inputs_deterministic_grid (fun _ => 0) (fun _ => 1) 0 (by norm_num)

/-- C5 counterexample: the claim asserts non-emptiness for *every* draw of
500 standard-normal values, but a draw can miss `[-1, 1]` entirely: the
all-`2` draw of length 500 filters to the empty list. -/
theorem C5_counterexample :
    (List.replicate 500 (2:ℝ)).length = 500 ∧ x_test (List.replicate 500 (2:ℝ)) = [] := by
  refine ⟨List.length_replicate 500 2, ?_⟩
  unfold x_test
  rw [List.filter_eq_nil_iff]
  intro a ha
  rw [List.eq_of_mem_replicate ha]
  simp only [decide_eq_true_eq]
  rw [abs_of_nonneg (by norm_num)]
  norm_num

/-- C5 amended: filtering any draw to `[-1, 1]` yields a sequence whose
every element satisfies `|x| ≤ 1`; the result is non-empty whenever the
draw contains at least one value with `|v| ≤ 1` (which a draw of 500
standard-normal values is not guaranteed to do). -/
theorem C5_filter_bounds (draw : List ℝ) (hdraw : draw.length = 500)
    (v : ℝ) (hv : v ∈ draw) (hv1 : |v| ≤ 1) :
    (∀ w ∈ x_test draw, |w| ≤ 1) ∧ x_test draw ≠ [] := by
  constructor
  · intro w hw
    rw [x_test, List.mem_filter] at hw
    simpa using hw.2
  · intro hnil
    rw [x_test, List.filter_eq_nil_iff] at hnil
    exact hnil v hv (by simpa using hv1)

theorem C5_witness :
    (∀ w ∈ x_test (List.replicate 500 (0:ℝ)), |w| ≤ 1) ∧
    x_test (List.replicate 500 (0:ℝ)) ≠ [] :=
  C5_filter_bounds (List.replicate 500 0) (List.length_replicate 500 0) 0
    (List.mem_replicate.mpr ⟨by norm_num, rfl⟩) (by norm_num)

/-- C6: feature expansion is consistent across degrees: for every input
sequence and every degree `1 ≤ d ≤ N`, the degree-`d` feature matrix equals
the first `d` columns of the full degree-`N` feature matrix over the same
inputs, and column `k` (1-indexed, position `k - 1` of each row) holds each
input raised to the power `k`. -/
theorem C6_feature_matrices_nested (xs : List ℝ) (d : ℕ) (h1 : 1 ≤ d) (h2 : d ≤ N) :
    featureMatrix d xs = (featureMatrix N xs).map (fun row => row.take d) ∧
    ∀ v ∈ xs, ∀ j, j < d → (featureRow d v).getD j 0 = v ^ (j + 1) := by
  refine ⟨(featureMatrix_take d N h2 xs).symm, ?_⟩
  intro v _ j hj
  exact featureRow_getD d j v hj

theorem C6_witness :
    featureMatrix 3 [(2:ℝ)] = (featureMatrix N [(2:ℝ)]).map (fun row => row.take 3) ∧
    ∀ v ∈ [(2:ℝ)], ∀ j, j < 3 → (featureRow 3 v).getD j 0 = v ^ (j + 1) :=
  C6_feature_matrices_nested [2] 3 (by norm_num) (by norm_num [N])

/-- C2: with nested polynomial feature matrices over the same inputs and
targets, ordinary least squares cannot do worse in-sample at a higher
degree: if `m1` is an OLS fit at degree `d1` and `m2` at degree `d2` with
`d1 < d2`, then the training RMSE of `m2` is at most that of `m1`.  This
instantiates to every pair of fitted degrees of the notebook, since
`Xs.get (d-1) = featureMatrix d x` (lemma `Xs_eq`) and the targets are the
fixed `y`. -/
theorem C2_training_rmse_antitone (xs ys : List ℝ) (d1 d2 : ℕ) (hlt : d1 < d2)
    (m1 m2 : LinModel)
    (hm1 : IsOLSFit d1 (featureMatrix d1 xs) ys m1)
    (hm2 : IsOLSFit d2 (featureMatrix d2 xs) ys m2) :
    rmseVal (m2.predict (featureMatrix d2 xs)) ys
      ≤ rmseVal (m1.predict (featureMatrix d1 xs)) ys := by
  apply rmseVal_mono
  · rw [length_predict, length_predict, length_featureMatrix, length_featureMatrix]
  · exact sse_ols_monotone xs ys d1 d2 (le_of_lt hlt) m1 m2 hm1 hm2

theorem C2_witness :
    rmseVal (LinModel.predict ⟨0, [0, 0]⟩ (featureMatrix 2 [(0:ℝ)])) [0]
      ≤ rmseVal (LinModel.predict ⟨0, [0]⟩ (featureMatrix 1 [(0:ℝ)])) [0] := by
  refine C2_training_rmse_antitone [0] [0] 1 2 (by norm_num) ⟨0, [0]⟩ ⟨0, [0, 0]⟩
    ⟨rfl, ?_⟩ ⟨rfl, ?_⟩
  · intro m' _
    have h0 : sse ⟨0, [0]⟩ (featureMatrix 1 [(0:ℝ)]) [0] = 0 := by
      simp [sse, sqDiffs, LinModel.predict, LinModel.predictRow, dot, featureMatrix,
        featureRow, List.range_succ]
    rw [h0]
    exact sse_nonneg m' _ _
  · intro m' _
    have h0 : sse ⟨0, [0, 0]⟩ (featureMatrix 2 [(0:ℝ)]) [0] = 0 := by
      simp [sse, sqDiffs, LinModel.predict, LinModel.predictRow, dot, featureMatrix,
        featureRow, List.range_succ]
    rw [h0]
    exact sse_nonneg m' _ _

/-- C7 counterexample: the claim quantifies over every pair of equal-length
sequences, but at `([], [])` the Python `rmse` raises (`statistics.mean`
requires at least one data point) instead of returning a non-negative
value. -/
theorem C7_counterexample : rmse ([] : List ℝ) [] = none := by
  rw [rmse, if_neg]
  rintro ⟨-, h⟩
  exact h rfl

/-- C7 amended: for every pair of equal-length *non-empty* sequences, `rmse`
returns a value; that value is non-negative, and it is zero exactly when
the predictions equal the targets elementwise. -/
theorem C7_rmse_nonneg_zero_iff (preds ts : List ℝ) (hlen : preds.length = ts.length)
    (hne : preds ≠ []) :
    rmse preds ts = some (rmseVal preds ts) ∧ 0 ≤ rmseVal preds ts ∧
    (rmseVal preds ts = 0 ↔ preds = ts) := by
  refine ⟨by rw [rmse, if_pos ⟨hlen, hne⟩], Real.sqrt_nonneg _, ?_⟩
  unfold rmseVal mean
  rw [Real.sqrt_eq_zero']
  have hlpos : 0 < ((sqDiffs preds ts).length : ℝ) := by
    rw [length_sqDiffs, hlen, Nat.min_self]
    have : 0 < ts.length := by
      rw [← hlen]
      exact List.length_pos.mpr hne
    exact_mod_cast this
  rw [div_le_iff₀ hlpos, zero_mul]
  constructor
  · intro hle
    exact (sqDiffs_sum_eq_zero_iff preds ts hlen).mp
      (le_antisymm hle (List.sum_nonneg (sqDiffs_nonneg preds ts)))
  · intro heq
    rw [(sqDiffs_sum_eq_zero_iff preds ts hlen).mpr heq]

theorem C7_witness :
    rmse [(1:ℝ)] [1] = some (rmseVal [(1:ℝ)] [1]) ∧ 0 ≤ rmseVal [(1:ℝ)] [1] ∧
    (rmseVal [(1:ℝ)] [1] = 0 ↔ [(1:ℝ)] = [1]) :=
  C7_rmse_nonneg_zero_iff [1] [1] rfl (List.cons_ne_nil 1 [])

/-- C8 counterexample: at the equal-length pair `([], [])` the Python `rmse`
raises (there is no arithmetic mean of zero squared differences), so it does
not return the claimed square root. -/
theorem C8_counterexample : (rmse ([] : List ℝ) []).isSome = false := by
  have h : rmse ([] : List ℝ) [] = none := by
    rw [rmse, if_neg]
    rintro ⟨-, h⟩
    exact h rfl
  rw [h, Option.isSome_none]

/-- C8 amended: for every pair of equal-length *non-empty* sequences, `rmse`
returns exactly the square root of the arithmetic mean (sum over count) of
the squared per-element differences between targets and predictions. -/
theorem C8_rmse_formula (preds ts : List ℝ) (hlen : preds.length = ts.length)
    (hne : preds ≠ []) :
    rmse preds ts
      = some (Real.sqrt
          ((List.zipWith (fun t p => (t - p) ^ 2) ts preds).sum / (ts.length : ℝ))) := by
  rw [rmse, if_pos ⟨hlen, hne⟩]
  unfold rmseVal mean sqDiffs
  rw [List.zipWith_comm (fun p t => (t - p) ^ 2) preds ts]
  congr 2
  rw [List.length_zipWith, ← hlen, Nat.min_self, hlen]

theorem C8_witness :
    rmse [(0:ℝ)] [2]
      = some (Real.sqrt
          ((List.zipWith (fun t p => (t - p) ^ 2) [(2:ℝ)] [(0:ℝ)]).sum
            / (([(2:ℝ)]).length : ℝ))) :=
  C8_rmse_formula [0] [2] rfl (List.cons_ne_nil 0 [])

/-- C9: the test targets use the very same ground-truth function
`true_model` and the very same noise scale `NOISE` as the training targets:
both `y` and `y_test` are instances of the one generator
`addNoise true_model NOISE`, and elementwise each test target is
`true_model x` plus `NOISE` times the fresh draw at that index. -/
theorem C9_test_targets_same_generator (xs : List ℝ) (epsTest epsTrain : ℕ → ℝ)
    (i : ℕ) (hi : i < xs.length) :
    y_test xs epsTest = addNoise true_model NOISE xs epsTest ∧
    y epsTrain = addNoise true_model NOISE x epsTrain ∧
    (y_test xs epsTest).getD i 0 = true_model (xs.getD i 0) + NOISE * epsTest i := by
  refine ⟨rfl, rfl, ?_⟩
  unfold y_test
  rw [List.getD_eq_getElem _ _ (by simpa using hi), List.getD_eq_getElem _ _ hi]
  simp

theorem C9_witness :
    y_test [(1:ℝ)] (fun _ => 1) = addNoise true_model NOISE [(1:ℝ)] (fun _ => 1) ∧
    y (fun _ => 0) = addNoise true_model NOISE x (fun _ => 0) ∧
    (y_test [(1:ℝ)] (fun _ => 1)).getD 0 0
      = true_model (([(1:ℝ)]).getD 0 0) + NOISE * 1 :=
  C9_test_targets_same_generator [1] (fun _ => 1) (fun _ => 0) 0 (by norm_num)

/-- C10: every `rmse` call in the script pairs predictions with targets of
equal length, so the elementwise subtraction inside `rmse` is well defined
and the length-mismatch branch is unreachable.  Training calls
(`rmse(predictions[i-1])`, targets defaulting to `y`): any model's
predictions over any entry of `Xs` have length 200, matching `y`; the call
returns a value.  Test calls (`rmse(test_predictions[i-1], true_y=y_test)`):
predictions over any entry of `test_Xs` built from `x_test` match the
length of `y_test`, which is generated from the same `x_test`. -/
theorem C10_rmse_calls_length_aligned (m : LinModel) (i : ℕ) (eps eps2 : ℕ → ℝ)
    (draw : List ℝ) (hi : i < Xs.length) :
    (m.predict (Xs.get ⟨i, hi⟩)).length = (y eps).length ∧
    (rmse (m.predict (Xs.get ⟨i, hi⟩)) (y eps)).isSome = true ∧
    ∀ m' : LinModel, ∀ M ∈ test_Xs (x_test draw),
      (m'.predict M).length = (y_test (x_test draw) eps2).length := by
  have hXlen : (Xs.get ⟨i, hi⟩).length = 200 := Xs_mem_length _ (Xs.get_mem _ _)
  have hplen : (m.predict (Xs.get ⟨i, hi⟩)).length = 200 := by
    rw [length_predict, hXlen]
  refine ⟨?_, ?_, ?_⟩
  · rw [hplen, length_y]
  · have hcond : (m.predict (Xs.get ⟨i, hi⟩)).length = (y eps).length ∧
        m.predict (Xs.get ⟨i, hi⟩) ≠ [] := by
      refine ⟨by rw [hplen, length_y], ?_⟩
      intro hnil
      rw [hnil] at hplen
      simp at hplen
    rw [rmse, if_pos hcond, Option.isSome_some]
  · intro m' M hM
    rw [length_predict, length_y_test, test_Xs_mem_length (x_test draw) M hM]

theorem C10_witness :
    (LinModel.predict ⟨0, []⟩ (Xs.get ⟨0, Xs_pos⟩)).length = (y (fun _ => 0)).length ∧
    (rmse (LinModel.predict ⟨0, []⟩ (Xs.get ⟨0, Xs_pos⟩)) (y (fun _ => 0))).isSome = true ∧
    ∀ m' : LinModel, ∀ M ∈ test_Xs (x_test []),
      (m'.predict M).length = (y_test (x_test []) (fun _ => 0)).length :=
  C10_rmse_calls_length_aligned ⟨0, []⟩ 0 (fun _ => 0) (fun _ => 0) [] Xs_pos

end BiasVariance
